import Mathlib

/-!
# Verification of the VideoML CLI orchestration layer (src/cli.ts)

A shallow embedding of the orchestration core of the `vml` command-line
tool: source-file discovery (`resolveDslPaths`, `discoverProjectDsls`,
`findDslFiles`), artifact-path derivation (`defaultsForComposition`),
the `generate` action's override validation, the watch handler's event
classification, and the `render` action's hand-off to the renderer.

Filesystem access (`existsSync`, `statSync`, `readdirSync`,
`readFileSync`) is modelled by an explicit `FS` record of pure
functions; directory trees are modelled by the inductive `Entry`.
External collaborators (`loadVideoFile`, `generateComposition`,
`findProjectRoot`, `renderVideoFromScript`) are opaque parameters or
recorded call descriptions: the theorems below are about the
orchestration logic only, exactly as the source delimits it.
-/

namespace VML

/-- Model of Node's `path.join(a, b)` for a normalized directory `a`
(no trailing separator) and a relative segment `b`, as used throughout
`cli.ts`: plain concatenation with one separator. -/
def joinPath (a b : String) : String := a ++ "/" ++ b

/-- Model of JavaScript `String.prototype.endsWith`, phrased on the
underlying character list so that it evaluates in the kernel and is
easy to reason about. -/
def strEndsWith (s suf : String) : Bool := suf.data.isSuffixOf s.data

/-- Model of JavaScript `String.prototype.startsWith`. -/
def strStartsWith (s pre : String) : Bool := pre.data.isPrefixOf s.data

/-- Model of Node's `path.resolve(cwd, p)`: an absolute `p` is kept,
a relative one is joined onto `cwd`. -/
def resolvePath (cwd p : String) : String :=
  if strStartsWith p "/" then p else joinPath cwd p

/-- The file-name test in `findDslFiles`:
`entry.name.endsWith(".babulus.ts") || entry.name.endsWith(".babulus.xml")`. -/
def isDslName (name : String) : Bool :=
  strEndsWith name ".babulus.ts" || strEndsWith name ".babulus.xml"

mutual
/-- A directory entry as returned by `readdirSync(root, { withFileTypes: true })`:
either a plain file or a subdirectory with its own entries. -/
inductive Entry where
  | file (name : String)
  | dir (name : String) (children : EntryList)
/-- The ordered entry listing of one directory. -/
inductive EntryList where
  | nil
  | cons (head : Entry) (tail : EntryList)
end

/-- The name of a directory entry (`entry.name`). -/
def entryName : Entry → String
  | .file n => n
  | .dir n _ => n

/-- View an entry listing as a plain list. -/
def EntryList.toList : EntryList → List Entry
  | .nil => []
  | .cons e rest => e :: rest.toList

/-- Build an entry listing from a plain list (used for fixtures). -/
def EntryList.ofList : List Entry → EntryList
  | [] => .nil
  | e :: rest => .cons e (EntryList.ofList rest)

/-- Lexicographic comparison of character lists by code point, the
order JavaScript's default `Array.prototype.sort()` comparator applies
to strings. -/
def charListLe : List Char → List Char → Bool
  | [], _ => true
  | _ :: _, [] => false
  | a :: as, b :: bs =>
      if a.toNat < b.toNat then true
      else if b.toNat < a.toNat then false
      else charListLe as bs

/-- The string order used by `Array.prototype.sort()` without a
comparator: lexicographic on code units. -/
def strLe (a b : String) : Bool := charListLe a.data b.data

instance : IsTotal String (fun a b => strLe a b = true) where
  total a b := by
    suffices h : ∀ l1 l2 : List Char, charListLe l1 l2 = true ∨ charListLe l2 l1 = true from
      h a.data b.data
    intro l1
    induction l1 with
    | nil => intro l2; left; rfl
    | cons x xs ih =>
      intro l2
      cases l2 with
      | nil => right; rfl
      | cons y ys =>
        simp only [charListLe]
        rcases Nat.lt_trichotomy x.toNat y.toNat with h | h | h
        · left; simp [h]
        · have hx : ¬ x.toNat < y.toNat := by omega
          have hy : ¬ y.toNat < x.toNat := by omega
          simpa [hx, hy] using ih ys
        · right; simp [h]

instance : IsTrans String (fun a b => strLe a b = true) where
  trans a b c := by
    suffices h : ∀ l1 l2 l3 : List Char,
        charListLe l1 l2 = true → charListLe l2 l3 = true → charListLe l1 l3 = true from
      h a.data b.data c.data
    have key : ∀ (x y : Char) (xs ys : List Char),
        charListLe (x :: xs) (y :: ys) = true ↔
          (x.toNat < y.toNat ∨ (x.toNat = y.toNat ∧ charListLe xs ys = true)) := by
      intro x y xs ys
      simp only [charListLe]
      by_cases h1 : x.toNat < y.toNat
      · simp [h1]
      · by_cases h2 : y.toNat < x.toNat
        · have hne : x.toNat ≠ y.toNat := by omega
          simp [h1, h2, hne]
        · have heq : x.toNat = y.toNat := by omega
          simp [h1, h2, heq]
    intro l1
    induction l1 with
    | nil => intro l2 l3 _ _; rfl
    | cons x xs ih =>
      intro l2 l3 h12 h23
      cases l2 with
      | nil => simp [charListLe] at h12
      | cons y ys =>
        cases l3 with
        | nil => simp [charListLe] at h23
        | cons z zs =>
          rw [key] at h12 h23 ⊢
          rcases h12 with h12 | ⟨h12e, h12r⟩
          · rcases h23 with h23 | ⟨h23e, h23r⟩
            · exact Or.inl (by omega)
            · exact Or.inl (by omega)
          · rcases h23 with h23 | ⟨h23e, h23r⟩
            · exact Or.inl (by omega)
            · exact Or.inr ⟨by omega, ih ys zs h12r h23r⟩

/-- Model of JavaScript `Array.prototype.sort()` on an array of strings:
a stable sort by the lexicographic string order.  Insertion sort is
extensionally the same function and evaluates in the kernel. -/
def sortStrings (l : List String) : List String :=
  l.insertionSort (fun a b => strLe a b = true)

/-- The body of `findDslFiles` before its final `out.sort()`: iterate the
entries in order, recurse (already sorted, as the source splices in the
recursive call's return value) into subdirectories when `recursive`,
and keep files whose name matches `isDslName`. -/
def findDslCollect : String → Bool → EntryList → List String
  | _, _, .nil => []
  | root, rec', .cons (Entry.dir n cs) rest =>
      (if rec' then sortStrings (findDslCollect (joinPath root n) true cs) else [])
        ++ findDslCollect root rec' rest
  | root, rec', .cons (Entry.file n) rest =>
      (if isDslName n then [joinPath root n] else []) ++ findDslCollect root rec' rest

/-- `findDslFiles(root, recursive)` from `cli.ts` lines 339–355: collect
matching files (recursively when asked) and return them sorted. -/
def findDslFiles (root : String) (rec' : Bool) (entries : EntryList) : List String :=
  sortStrings (findDslCollect root rec' entries)

instance {ε α : Type} [DecidableEq ε] [DecidableEq α] : DecidableEq (Except ε α) := fun a b =>
  match a, b with
  | .ok x, .ok y =>
    if h : x = y then isTrue (by rw [h]) else isFalse (by simp [h])
  | .error x, .error y =>
    if h : x = y then isTrue (by rw [h]) else isFalse (by simp [h])
  | .ok _, .error _ => isFalse (by simp)
  | .error _, .ok _ => isFalse (by simp)

/-- The two error families observable at the top-level catch of
`program.parseAsync`: a `BabulusError` (validation family) versus any
other thrown error (Node filesystem errors, unexpected failures). -/
inductive CliError where
  | babulus (msg : String)
  | node (msg : String)
deriving Repr, DecidableEq

/-- The top-level catch (`cli.ts` lines 301–308): a `BabulusError`
prints only its message and exits with code 2; anything else prints the
full error (with stack trace) and exits with code 1. -/
def exitCode : CliError → Nat
  | .babulus _ => 2
  | .node _ => 1

/-- An abstract filesystem, one pure function per Node API used by the
orchestrator: `existsSync`, `statSync(...).isFile()`, the entry tree
under a directory (`readdirSync`, recursively), and `readFileSync`
(`none` models a missing file, i.e. an `ENOENT` throw). -/
structure FS where
  pathExists : String → Bool
  isFile : String → Bool
  entriesOf : String → EntryList
  readFile : String → Option String

/-- `discoverProjectDsls(cwd)` (`cli.ts` lines 331–337): if a `content/`
subdirectory exists, scan it recursively; otherwise scan `cwd`
non-recursively. -/
def discoverProjectDsls (fs : FS) (cwd : String) : List String :=
  let contentDir := joinPath cwd "content"
  if fs.pathExists contentDir then
    findDslFiles contentDir true (fs.entriesOf contentDir)
  else
    findDslFiles cwd false (fs.entriesOf cwd)

/-- The ambiguity error message thrown by `resolveDslPaths` when
discovery finds more than one candidate. -/
def multipleDslsMsg (n : Nat) : String :=
  "Multiple .babulus.ts/.babulus.xml files found (" ++ toString n ++
    "). Pass a specific file or directory path."

/-- `resolveDslPaths(dslArg, cwd)` (`cli.ts` lines 310–329): an explicit
argument must exist (a file is returned as a singleton, a directory is
scanned); with no argument, discovery must yield exactly one candidate,
otherwise a `BabulusError` is thrown. -/
def resolveDslPaths (fs : FS) (dslArg : Option String) (cwd : String) :
    Except CliError (List String) :=
  match dslArg with
  | some arg =>
    let candidate := resolvePath cwd arg
    if fs.pathExists candidate then
      if fs.isFile candidate then Except.ok [candidate]
      else Except.ok (findDslFiles candidate true (fs.entriesOf candidate))
    else Except.error (CliError.babulus ("Path does not exist: " ++ candidate))
  | none =>
    let auto := discoverProjectDsls fs cwd
    if auto.length = 0 then
      Except.error (CliError.babulus
        "No .babulus.ts or .babulus.xml files found. Pass a file or directory path, or create one under ./content/")
    else if auto.length > 1 then
      Except.error (CliError.babulus (multipleDslsMsg auto.length))
    else Except.ok (auto.take 1)

/-- A composition unit; the orchestrator only looks at its `id`. -/
structure Comp where
  id : String
deriving Repr, DecidableEq

/-- One resolved source run: a DSL path together with the compositions
its `loadVideoFile` call yielded. -/
structure SourceRun where
  path : String
  compositions : List Comp
deriving Repr, DecidableEq

/-- The `generate` options that steer the modelled control flow.
Provider/seed/fresh/quiet knobs are forwarded opaquely to the external
generation collaborator and never branch the orchestration, so they are
not part of the model. -/
structure GenOpts where
  scriptOut : Option String
  timelineOut : Option String
  audioOut : Option String
  outDir : Option String
  usageOut : Option String
  watch : Bool
deriving Repr, DecidableEq

/-- JavaScript truthiness of an optional string option, as tested by
`opts.scriptOut || opts.timelineOut || ...`: absent and empty strings are
falsy, any other string is truthy. -/
def optTruthy : Option String → Bool
  | none => false
  | some s => !s.data.isEmpty

/-- The override disjunction of `cli.ts` lines 49 and 55:
`opts.scriptOut || opts.timelineOut || opts.audioOut || opts.outDir || opts.usageOut`. -/
def anyOutputOverride (o : GenOpts) : Bool :=
  optTruthy o.scriptOut || optTruthy o.timelineOut || optTruthy o.audioOut ||
    optTruthy o.outDir || optTruthy o.usageOut

/-- The four artifact locations derived for one composition. -/
structure ArtifactPaths where
  scriptOut : String
  timelineOut : String
  audioOut : String
  outDir : String
deriving Repr, DecidableEq

/-- `defaultsForComposition(compId, dslPath, projectDir, opts)`
(`cli.ts` lines 366–386).  The project root is the explicit
`projectDir` if given, else the external `findProjectRoot(dslPath)`
(passed here as the function parameter `findRoot`).  Each of the four
fields uses the override when the option is a string
(`typeof opts.x === "string"`, so even an empty string counts here),
else its template default. -/
def defaultsForComposition (findRoot : String → String) (compId dslPath : String)
    (projectDir : Option String) (opts : GenOpts) : ArtifactPaths :=
  let root := match projectDir with
    | some r => r
    | none => findRoot dslPath
  { scriptOut := match opts.scriptOut with
      | some s => s
      | none => joinPath root ("src/videos/" ++ compId ++ "/" ++ compId ++ ".script.json")
    timelineOut := match opts.timelineOut with
      | some s => s
      | none => joinPath root ("src/videos/" ++ compId ++ "/" ++ compId ++ ".timeline.json")
    audioOut := match opts.audioOut with
      | some s => s
      | none => joinPath root ("public/videoml/" ++ compId ++ ".wav")
    outDir := match opts.outDir with
      | some s => s
      | none => joinPath root (".videoml/out/" ++ compId) }

/-- One recorded invocation of the external `generateComposition`
collaborator: which composition, from which source, with which artifact
paths. -/
structure GenCall where
  compId : String
  dslPath : String
  paths : ArtifactPaths
deriving Repr, DecidableEq

/-- `runOnce(dslSubset?)` from the `generate` action (`cli.ts` lines
61–91): iterate the runs in order, skip runs outside the subset when a
subset is given, and issue one generation call per composition in
declaration order. -/
def runOnce (findRoot : String → String) (projectDir : Option String) (opts : GenOpts)
    (runs : List SourceRun) (dslSubset : Option (List String)) : List GenCall :=
  runs.flatMap fun run =>
    if (match dslSubset with
        | some ds => !ds.contains run.path
        | none => false) then []
    else run.compositions.map fun comp =>
      { compId := comp.id
        dslPath := run.path
        paths := defaultsForComposition findRoot comp.id run.path projectDir opts }

/-- The total composition count across all resolved runs
(`runs.reduce((sum, r) => sum + r.compositions.length, 0)`). -/
def totalComps (runs : List SourceRun) : Nat :=
  (runs.map fun r => r.compositions.length).sum

/-- The `generate` action (`cli.ts` lines 39–96) from the point where
the DSL paths are resolved, up to and including the one-shot
generation run.  `loader` stands for the external `loadVideoFile`
collaborator.  The two validation checks (the `--watch` override check
of line 49 and the single-composition override check of line 55) run
before any generation call; in watch mode no immediate generation run
happens (the watcher reacts to events instead), so the immediate call
list is empty. -/
def generateAction (findRoot : String → String) (loader : String → List Comp)
    (opts : GenOpts) (projectDir : Option String) (dslPaths : List String) :
    Except CliError (List GenCall) :=
  if opts.watch && anyOutputOverride opts && (dslPaths.length != 1) then
    Except.error (CliError.babulus
      "When using --watch with multiple DSLs, omit explicit output overrides.")
  else
    let runs := dslPaths.map fun p => SourceRun.mk p (loader p)
    if anyOutputOverride opts && (totalComps runs != 1) then
      Except.error (CliError.babulus "Output overrides require a single composition.")
    else if !opts.watch then
      Except.ok (runOnce findRoot projectDir opts runs none)
    else
      Except.ok []

/-- The generation calls an action outcome actually issues: none at all
when the batch was rejected. -/
def issuedCalls : Except CliError (List GenCall) → List GenCall
  | .ok cs => cs
  | .error _ => []

/-- `findConfigPathForWatch(projectDir, dslPath)` (`cli.ts` lines
392–407): probe `<root>/.videoml/config.yml`, then
`<root>/.babulus/config.yml`.  A `findProjectRoot` failure yields
`null`; here `findRoot` is total, the failing case collapsing into the
not-found result. -/
def findConfigPathForWatch (fs : FS) (findRoot : String → String)
    (projectDir : Option String) (dslPath : String) : Option String :=
  let root := match projectDir with
    | some r => r
    | none => findRoot dslPath
  let videoml := joinPath root (joinPath ".videoml" "config.yml")
  if fs.pathExists videoml then some videoml
  else
    let babulus := joinPath root (joinPath ".babulus" "config.yml")
    if fs.pathExists babulus then some babulus else none

/-- What the watch callback decides to do for one change event. -/
inductive WatchAction where
  | noTrigger
  | fullRebuild
  | scopedRebuild (path : String)
deriving Repr, DecidableEq

/-- The watch-mode session state fixed at startup (`cli.ts` lines
98–103): the working directory, the resolved config path (if any), the
tracked DSL paths and their directories. -/
structure WatchSession where
  cwd : String
  configPath : Option String
  dslPaths : List String
  dslDirs : List String
deriving Repr, DecidableEq

/-- The extension filter at the top of the watch callback (`cli.ts`
lines 122–129). -/
def relevantExt (p : String) : Bool :=
  strEndsWith p ".ts" || strEndsWith p ".xml" || strEndsWith p ".yml" || strEndsWith p ".yaml"

/-- The classification performed by the `watcher.on("all", ...)`
callback (`cli.ts` lines 118–155): drop events with an irrelevant
extension; a change at the config path rebuilds everything; a change at
a tracked DSL path rebuilds that source only; any other `.ts`/`.xml`
change under a tracked DSL directory rebuilds everything; everything
else is dropped. -/
def watchHandler (s : WatchSession) (changedPath : String) : WatchAction :=
  let absChanged := resolvePath s.cwd changedPath
  if !relevantExt absChanged then WatchAction.noTrigger
  else if (match s.configPath with
      | some cp => absChanged == cp
      | none => false) then WatchAction.fullRebuild
  else
    match s.dslPaths.find? (fun p => p = absChanged) with
    | some m => WatchAction.scopedRebuild m
    | none =>
      if (s.dslDirs.any fun d => strStartsWith absChanged (d ++ "/")) &&
          (strEndsWith absChanged ".ts" || strEndsWith absChanged ".xml") then
        WatchAction.fullRebuild
      else WatchAction.noTrigger

/-- The number of rebuild executions currently in flight in a watch
session. -/
structure EngineState where
  inFlight : Nat
deriving Repr, DecidableEq

/-- Operational model of the watch loop as written: every classified
change event immediately forks an asynchronous `runOnce` execution —
the callback holds no guard, queue or busy flag (`cli.ts` lines
118–155), so `fire` is enabled regardless of how many rebuilds are
already in flight; `finish` retires one in-flight rebuild when its
awaited generation completes. -/
inductive WatchStep (s : WatchSession) : EngineState → EngineState → Prop where
  | fire (p : String) (st : EngineState) :
      watchHandler s p ≠ WatchAction.noTrigger → WatchStep s st ⟨st.inFlight + 1⟩
  | finish (st : EngineState) :
      0 < st.inFlight → WatchStep s st ⟨st.inFlight - 1⟩

/-- The `render` options that steer the modelled control flow; numeric
pass-through options (`--start`, `--end`, `--fps`, ...) never branch
the orchestration before the renderer call and are forwarded opaquely. -/
structure RenderOpts where
  script : String
  frames : String
  out : String
  timeline : Option String
  audio : Option String
deriving Repr, DecidableEq

/-- The single hand-off to the external `renderVideoFromScript`
collaborator, with the data the orchestrator resolved for it.  The two
JSON artifacts are carried as the raw file contents; `JSON.parse` is an
external step applied to them unchanged. -/
structure RenderCall where
  scriptText : String
  timelineText : Option String
  framesDir : String
  outputPath : String
  audioPath : Option String
deriving Repr, DecidableEq

/-- Model of `readFileSync(p, "utf8")`: a missing file throws a Node
`ENOENT` error, which is not a `BabulusError`. -/
def readFileModel (fs : FS) (p : String) : Except CliError String :=
  match fs.readFile p with
  | some content => Except.ok content
  | none =>
    Except.error (CliError.node
      ("ENOENT: no such file or directory, open '" ++ p ++ "'"))

/-- The `render` action (`cli.ts` lines 186–229): resolve every path
against the working directory, read the script (required) and the
timeline (optional) from disk, then invoke the renderer once. -/
def renderAction (fs : FS) (cwd : String) (opts : RenderOpts) :
    Except CliError RenderCall :=
  let scriptPath := resolvePath cwd opts.script
  let framesDir := resolvePath cwd opts.frames
  let outputPath := resolvePath cwd opts.out
  let audioPath := opts.audio.map (resolvePath cwd)
  let timelinePath := opts.timeline.map (resolvePath cwd)
  match readFileModel fs scriptPath with
  | .error e => Except.error e
  | .ok scriptText =>
    match timelinePath with
    | some tp =>
      match readFileModel fs tp with
      | .error e => Except.error e
      | .ok t => Except.ok ⟨scriptText, some t, framesDir, outputPath, audioPath⟩
    | none => Except.ok ⟨scriptText, none, framesDir, outputPath, audioPath⟩

/-- Well-formedness of a filesystem entry name: nonempty and free of the
path separator (true of every name `readdirSync` can return). -/
def goodName (n : String) : Bool := !n.data.isEmpty && !n.data.contains '/'

mutual
/-- Filesystem well-formedness of one entry: a good name, and a
well-formed listing below a directory. -/
def wfEntry : Entry → Bool
  | .file n => goodName n
  | .dir n cs => goodName n && wfEntries cs
/-- Filesystem well-formedness of a directory listing: every entry
well-formed and the names pairwise distinct. -/
def wfEntries : EntryList → Bool
  | .nil => true
  | .cons e rest =>
      wfEntry e && !((rest.toList.map entryName).contains (entryName e)) && wfEntries rest
end

/-- `TreeFile root es p n`: the directory tree with listing `es`, rooted
at path `root`, contains (at any depth) a file named `n` whose full path
is `p`. -/
inductive TreeFile : String → EntryList → String → String → Prop where
  | here {root : String} {es : EntryList} {n : String} :
      Entry.file n ∈ es.toList → TreeFile root es (joinPath root n) n
  | deeper {root : String} {es : EntryList} {d : String} {cs : EntryList} {p n : String} :
      Entry.dir d cs ∈ es.toList → TreeFile (joinPath root d) cs p n → TreeFile root es p n

/-! ### Concrete fixtures used by witnesses and counterexamples -/

/-- A working directory `/w` whose `content/` subdirectory holds two
matching source files. -/
def fsContentTwo : FS :=
  { pathExists := fun p => p == "/w/content"
    isFile := fun _ => false
    entriesOf := fun p =>
      if p == "/w/content" then
        EntryList.ofList [Entry.file "a.babulus.ts", Entry.file "b.babulus.ts"]
      else EntryList.nil
    readFile := fun _ => none }

/-- A working directory `/w` whose `content/` subdirectory holds exactly
one matching source file. -/
def fsContentOne : FS :=
  { pathExists := fun p => p == "/w/content"
    isFile := fun _ => false
    entriesOf := fun p =>
      if p == "/w/content" then EntryList.ofList [Entry.file "a.babulus.ts"]
      else EntryList.nil
    readFile := fun _ => none }

/-- A filesystem holding a single ordinary file `/w/notes.md` (not a
DSL extension). -/
def fsSingleFile : FS :=
  { pathExists := fun p => p == "/w/notes.md"
    isFile := fun p => p == "/w/notes.md"
    entriesOf := fun _ => EntryList.nil
    readFile := fun _ => none }

/-- A filesystem with no readable files at all. -/
def fsEmpty : FS :=
  { pathExists := fun _ => false
    isFile := fun _ => false
    entriesOf := fun _ => EntryList.nil
    readFile := fun _ => none }

/-- A watch session tracking one explicitly named source whose
extension is outside the watch filter set. -/
def sessionJsonSource : WatchSession := ⟨"/", none, ["/w/a.babulus.json"], ["/w"]⟩

/-- A watch session tracking one explicitly named `.yml` source. -/
def sessionYmlSource : WatchSession := ⟨"/", none, ["/w/a.yml"], ["/w"]⟩

/-- A typical watch session: one `.babulus.ts` source and a resolved
config file. -/
def sessionTsSource : WatchSession :=
  ⟨"/", some "/r/.videoml/config.yml", ["/w/a.babulus.ts"], ["/w"]⟩

/-- A directory tree mixing matching and unrelated files, used to
witness the directory-scan theorem. -/
def exTree : EntryList :=
  EntryList.ofList
    [Entry.file "b.babulus.ts",
     Entry.dir "sub" (EntryList.ofList [Entry.file "a.babulus.xml", Entry.file "notes.txt"]),
     Entry.file "readme.md"]


/-!
## Theorems

Each claim-level theorem is stated over the definitions above; helper
lemmas are shared.
-/


theorem joinPath_script (r i : String) :
    joinPath r ("src/videos/" ++ i ++ "/" ++ i ++ ".script.json")
      = r ++ "/src/videos/" ++ i ++ "/" ++ i ++ ".script.json" := by
  simp only [joinPath, ← String.append_assoc]
  rw [String.append_assoc r "/" "src/videos/",
    show ("/" ++ "src/videos/" : String) = "/src/videos/" from rfl]

theorem joinPath_timeline (r i : String) :
    joinPath r ("src/videos/" ++ i ++ "/" ++ i ++ ".timeline.json")
      = r ++ "/src/videos/" ++ i ++ "/" ++ i ++ ".timeline.json" := by
  simp only [joinPath, ← String.append_assoc]
  rw [String.append_assoc r "/" "src/videos/",
    show ("/" ++ "src/videos/" : String) = "/src/videos/" from rfl]

theorem joinPath_audio (r i : String) :
    joinPath r ("public/videoml/" ++ i ++ ".wav")
      = r ++ "/public/videoml/" ++ i ++ ".wav" := by
  simp only [joinPath, ← String.append_assoc]
  rw [String.append_assoc r "/" "public/videoml/",
    show ("/" ++ "public/videoml/" : String) = "/public/videoml/" from rfl]

theorem joinPath_outdir (r i : String) :
    joinPath r (".videoml/out/" ++ i) = r ++ "/.videoml/out/" ++ i := by
  simp only [joinPath, ← String.append_assoc]
  rw [String.append_assoc r "/" ".videoml/out/",
    show ("/" ++ ".videoml/out/" : String) = "/.videoml/out/" from rfl]

/-- C6 -/
theorem defaults_templates_and_overrides (findRoot : String → String) (id dsl root s : String) :
    (defaultsForComposition findRoot id dsl (some root) ⟨none, none, none, none, none, false⟩ =
      ⟨root ++ "/src/videos/" ++ id ++ "/" ++ id ++ ".script.json",
       root ++ "/src/videos/" ++ id ++ "/" ++ id ++ ".timeline.json",
       root ++ "/public/videoml/" ++ id ++ ".wav",
       root ++ "/.videoml/out/" ++ id⟩)
    ∧ (defaultsForComposition findRoot id dsl (some root) ⟨some s, none, none, none, none, false⟩ =
      ⟨s,
       root ++ "/src/videos/" ++ id ++ "/" ++ id ++ ".timeline.json",
       root ++ "/public/videoml/" ++ id ++ ".wav",
       root ++ "/.videoml/out/" ++ id⟩)
    ∧ (defaultsForComposition findRoot id dsl (some root) ⟨none, some s, none, none, none, false⟩ =
      ⟨root ++ "/src/videos/" ++ id ++ "/" ++ id ++ ".script.json",
       s,
       root ++ "/public/videoml/" ++ id ++ ".wav",
       root ++ "/.videoml/out/" ++ id⟩)
    ∧ (defaultsForComposition findRoot id dsl (some root) ⟨none, none, some s, none, none, false⟩ =
      ⟨root ++ "/src/videos/" ++ id ++ "/" ++ id ++ ".script.json",
       root ++ "/src/videos/" ++ id ++ "/" ++ id ++ ".timeline.json",
       s,
       root ++ "/.videoml/out/" ++ id⟩)
    ∧ (defaultsForComposition findRoot id dsl (some root) ⟨none, none, none, some s, none, false⟩ =
      ⟨root ++ "/src/videos/" ++ id ++ "/" ++ id ++ ".script.json",
       root ++ "/src/videos/" ++ id ++ "/" ++ id ++ ".timeline.json",
       root ++ "/public/videoml/" ++ id ++ ".wav",
       s⟩) := by
  refine ⟨?_, ?_, ?_, ?_, ?_⟩ <;>
    simp [defaultsForComposition, joinPath_script, joinPath_timeline, joinPath_audio,
      joinPath_outdir]


/-- C1 -/
theorem generate_override_multi_composition_rejected
    (findRoot : String → String) (loader : String → List Comp) (opts : GenOpts)
    (projectDir : Option String) (dslPaths : List String)
    (hov : (optTruthy opts.scriptOut || optTruthy opts.timelineOut ||
      optTruthy opts.audioOut || optTruthy opts.outDir) = true)
    (hn : totalComps (dslPaths.map fun p => SourceRun.mk p (loader p)) ≠ 1) :
    (∃ msg, generateAction findRoot loader opts projectDir dslPaths
        = Except.error (CliError.babulus msg))
    ∧ issuedCalls (generateAction findRoot loader opts projectDir dslPaths) = [] := by
  have hov5 : anyOutputOverride opts = true := by
    simp only [anyOutputOverride, Bool.or_eq_true] at hov ⊢
    tauto
  have hres : ∃ msg, generateAction findRoot loader opts projectDir dslPaths
      = Except.error (CliError.babulus msg) := by
    simp only [generateAction]
    split
    · exact ⟨_, rfl⟩
    · rw [if_pos]
      · exact ⟨_, rfl⟩
      · simp [hov5, bne_iff_ne, hn]
  obtain ⟨msg, hm⟩ := hres
  exact ⟨⟨msg, hm⟩, by rw [hm]; rfl⟩

/-- C1 witness -/
theorem generate_override_multi_composition_rejected_witness :
    ((optTruthy (some "out.json") || optTruthy none || optTruthy none || optTruthy none) = true)
    ∧ ((∃ msg, generateAction (fun _ => "/p") (fun _ => [⟨"one"⟩, ⟨"two"⟩])
        ⟨some "out.json", none, none, none, none, false⟩ none ["/w/x.babulus.ts"]
        = Except.error (CliError.babulus msg))
      ∧ issuedCalls (generateAction (fun _ => "/p") (fun _ => [⟨"one"⟩, ⟨"two"⟩])
        ⟨some "out.json", none, none, none, none, false⟩ none ["/w/x.babulus.ts"]) = []) := by
  refine ⟨by decide, ?_⟩
  exact generate_override_multi_composition_rejected (fun _ => "/p")
    (fun _ => [⟨"one"⟩, ⟨"two"⟩]) ⟨some "out.json", none, none, none, none, false⟩
    none ["/w/x.babulus.ts"] (by decide) (by decide)

/-- C8 counterexample -/
theorem usage_out_watch_rejection_differs :
    generateAction (fun _ => "/p") (fun _ => [⟨"one"⟩])
        ⟨none, none, none, none, some "u.json", true⟩ none ["/w/a.babulus.ts", "/w/b.babulus.ts"]
      = Except.error (CliError.babulus
          "When using --watch with multiple DSLs, omit explicit output overrides.")
    ∧ generateAction (fun _ => "/p") (fun _ => [⟨"one"⟩])
        ⟨none, none, none, none, some "u.json", true⟩ none ["/w/a.babulus.ts", "/w/b.babulus.ts"]
      ≠ Except.error (CliError.babulus "Output overrides require a single composition.") := by
  exact ⟨by decide, by decide⟩

/-- C8 amended -/
theorem usage_out_is_output_override
    (findRoot : String → String) (loader : String → List Comp) (opts : GenOpts)
    (projectDir : Option String) (dslPaths : List String)
    (hu : optTruthy opts.usageOut = true) (hw : opts.watch = false)
    (hn : totalComps (dslPaths.map fun p => SourceRun.mk p (loader p)) ≠ 1) :
    generateAction findRoot loader opts projectDir dslPaths
      = Except.error (CliError.babulus "Output overrides require a single composition.") := by
  have hov5 : anyOutputOverride opts = true := by
    simp only [anyOutputOverride, Bool.or_eq_true]
    tauto
  simp [generateAction, hw, hov5, bne_iff_ne, hn]

/-- C8 witness -/
theorem usage_out_is_output_override_witness :
    optTruthy (some "u.json") = true
    ∧ generateAction (fun _ => "/p") (fun _ => [⟨"one"⟩, ⟨"two"⟩])
        ⟨none, none, none, none, some "u.json", false⟩ none ["/w/x.babulus.ts"]
      = Except.error (CliError.babulus "Output overrides require a single composition.") := by
  refine ⟨by decide, ?_⟩
  exact usage_out_is_output_override (fun _ => "/p") (fun _ => [⟨"one"⟩, ⟨"two"⟩])
    ⟨none, none, none, none, some "u.json", false⟩ none ["/w/x.babulus.ts"]
    (by decide) (by decide) (by decide)

/-- C3 counterexample -/
theorem content_ambiguity_still_errors :
    fsContentTwo.pathExists "/w/content" = true
    ∧ discoverProjectDsls fsContentTwo "/w"
        = ["/w/content/a.babulus.ts", "/w/content/b.babulus.ts"]
    ∧ resolveDslPaths fsContentTwo none "/w"
        = Except.error (CliError.babulus (multipleDslsMsg 2)) := by
  exact ⟨by decide, by decide, by decide⟩

/-- C3 amended -/
theorem no_arg_discovery_requires_unique (fs : FS) (cwd : String) :
    (1 < (discoverProjectDsls fs cwd).length →
      resolveDslPaths fs none cwd
        = Except.error (CliError.babulus (multipleDslsMsg (discoverProjectDsls fs cwd).length)))
    ∧ ((discoverProjectDsls fs cwd).length = 1 →
      resolveDslPaths fs none cwd = Except.ok ((discoverProjectDsls fs cwd).take 1)) := by
  constructor
  · intro h
    simp only [resolveDslPaths]
    rw [if_neg (by omega), if_pos (by omega)]
  · intro h
    simp only [resolveDslPaths]
    rw [if_neg (by omega), if_neg (by omega)]

/-- C3 amended witness -/
theorem no_arg_discovery_requires_unique_witness :
    (1 < (discoverProjectDsls fsContentTwo "/w").length
      ∧ resolveDslPaths fsContentTwo none "/w"
        = Except.error (CliError.babulus (multipleDslsMsg (discoverProjectDsls fsContentTwo "/w").length)))
    ∧ ((discoverProjectDsls fsContentOne "/w").length = 1
      ∧ resolveDslPaths fsContentOne none "/w"
        = Except.ok ((discoverProjectDsls fsContentOne "/w").take 1)) := by
  refine ⟨⟨by decide, ?_⟩, ⟨by decide, ?_⟩⟩
  · exact (no_arg_discovery_requires_unique fsContentTwo "/w").1 (by decide)
  · exact (no_arg_discovery_requires_unique fsContentOne "/w").2 (by decide)

/-- C10 -/
theorem explicit_file_arg_returned_verbatim (fs : FS) (arg cwd : String)
    (hex : fs.pathExists (resolvePath cwd arg) = true)
    (hf : fs.isFile (resolvePath cwd arg) = true) :
    resolveDslPaths fs (some arg) cwd = Except.ok [resolvePath cwd arg] := by
  simp [resolveDslPaths, hex, hf]

/-- C10 witness -/
theorem explicit_file_arg_returned_verbatim_witness :
    fsSingleFile.pathExists (resolvePath "/w" "notes.md") = true
    ∧ fsSingleFile.isFile (resolvePath "/w" "notes.md") = true
    ∧ resolveDslPaths fsSingleFile (some "notes.md") "/w" = Except.ok [resolvePath "/w" "notes.md"] :=
  ⟨by decide, by decide,
    explicit_file_arg_returned_verbatim fsSingleFile "notes.md" "/w" (by decide) (by decide)⟩



theorem find_eq_self (l : List String) (p : String) (hp : p ∈ l) :
    l.find? (fun q => q = p) = some p := by
  induction l with
  | nil => cases hp
  | cons a rest ih =>
    by_cases ha : a = p
    · subst ha; simp [List.find?]
    · have hmem : p ∈ rest := by
        cases hp with
        | head => exact absurd rfl ha
        | tail _ h => exact h
      simp only [List.find?]
      rw [decide_eq_false ha]
      exact ih hmem

theorem find_eq_none (l : List String) (p : String) (hp : p ∉ l) :
    l.find? (fun q => q = p) = none := by
  rw [List.find?_eq_none]
  intro x hx
  simp only [decide_eq_true_eq]
  intro h
  exact hp (h ▸ hx)

theorem suffix_excludes (p s1 s2 : String) (h1 : strEndsWith p s1 = true)
    (hlen : s1.data.length ≤ s2.data.length) (h2 : strEndsWith p s2 = true) :
    s1.data <:+ s2.data := by
  simp only [strEndsWith, List.isSuffixOf_iff_suffix] at h1 h2
  exact List.suffix_of_suffix_length_le h1 h2 hlen

theorem yml_yaml_not_ts_xml (p : String)
    (hext : (strEndsWith p ".yml" || strEndsWith p ".yaml") = true) :
    strEndsWith p ".ts" = false ∧ strEndsWith p ".xml" = false := by
  rcases Bool.or_eq_true _ _ |>.mp hext with hy | hy
  · constructor
    · by_contra hts
      have hts' : strEndsWith p ".ts" = true := by
        cases h : strEndsWith p ".ts"
        · exact absurd h hts
        · rfl
      have := suffix_excludes p ".ts" ".yml" hts' (by decide) hy
      exact absurd this (by decide)
    · by_contra hxml
      have hx' : strEndsWith p ".xml" = true := by
        cases h : strEndsWith p ".xml"
        · exact absurd h hxml
        · rfl
      have := suffix_excludes p ".xml" ".yml" hx' (by decide) hy
      exact absurd this (by decide)
  · constructor
    · by_contra hts
      have hts' : strEndsWith p ".ts" = true := by
        cases h : strEndsWith p ".ts"
        · exact absurd h hts
        · rfl
      have := suffix_excludes p ".ts" ".yaml" hts' (by decide) hy
      exact absurd this (by decide)
    · by_contra hxml
      have hx' : strEndsWith p ".xml" = true := by
        cases h : strEndsWith p ".xml"
        · exact absurd h hxml
        · rfl
      have := suffix_excludes p ".xml" ".yaml" hx' (by decide) hy
      exact absurd this (by decide)

/-- C4 counterexample -/
theorem render_missing_script_exits_one :
    renderAction fsEmpty "/w" ⟨"s.json", "frames", "out.mp4", none, none⟩
      = Except.error (CliError.node "ENOENT: no such file or directory, open '/w/s.json'")
    ∧ exitCode (CliError.node "ENOENT: no such file or directory, open '/w/s.json'") ≠ 2 :=
  ⟨by decide, by decide⟩

/-- C4 amended -/
theorem render_missing_script_node_error (fs : FS) (cwd : String) (opts : RenderOpts)
    (h : fs.readFile (resolvePath cwd opts.script) = none) :
    renderAction fs cwd opts
      = Except.error (CliError.node
          ("ENOENT: no such file or directory, open '" ++ resolvePath cwd opts.script ++ "'"))
    ∧ exitCode (CliError.node
          ("ENOENT: no such file or directory, open '" ++ resolvePath cwd opts.script ++ "'")) = 1 := by
  constructor
  · simp [renderAction, readFileModel, h]
  · rfl

/-- C4 witness -/
theorem render_missing_script_node_error_witness :
    fsEmpty.readFile (resolvePath "/w" "s.json") = none
    ∧ (renderAction fsEmpty "/w" ⟨"s.json", "frames", "out.mp4", none, none⟩
        = Except.error (CliError.node
            ("ENOENT: no such file or directory, open '" ++ resolvePath "/w" "s.json" ++ "'"))
      ∧ exitCode (CliError.node
            ("ENOENT: no such file or directory, open '" ++ resolvePath "/w" "s.json" ++ "'")) = 1) :=
  ⟨rfl, render_missing_script_node_error fsEmpty "/w" ⟨"s.json", "frames", "out.mp4", none, none⟩ rfl⟩

/-- C5 counterexample -/
theorem tracked_source_unlisted_extension_no_trigger :
    ("/w/a.babulus.json" ∈ sessionJsonSource.dslPaths)
    ∧ watchHandler sessionJsonSource "/w/a.babulus.json" = WatchAction.noTrigger :=
  ⟨by decide, by decide⟩

/-- C5 amended -/
theorem watch_event_classification (s : WatchSession) (p : String)
    (habs : strStartsWith p "/" = true)
    (hcfg : ∀ cp, s.configPath = some cp → strEndsWith cp ".yml" = true) :
    (s.configPath = some p → watchHandler s p = WatchAction.fullRebuild)
    ∧ (p ∈ s.dslPaths → relevantExt p = true → s.configPath ≠ some p →
        watchHandler s p = WatchAction.scopedRebuild p)
    ∧ (relevantExt p = false → watchHandler s p = WatchAction.noTrigger) := by
  have habs' : resolvePath s.cwd p = p := by simp [resolvePath, habs]
  refine ⟨?_, ?_, ?_⟩
  · intro hc
    have hyml := hcfg p hc
    have hrel : relevantExt p = true := by simp [relevantExt, hyml]
    simp [watchHandler, habs', hrel, hc]
  · intro hmem hrel hne
    simp only [watchHandler, habs', hrel, Bool.not_true, Bool.false_eq_true, if_false]
    cases hcp : s.configPath with
    | none => simp [find_eq_self s.dslPaths p hmem]
    | some cp =>
      have hne' : (p == cp) = false := by
        have : cp ≠ p := fun h => hne (by rw [hcp, h])
        simp only [beq_eq_false_iff_ne, ne_eq]
        exact fun h => this h.symm
      simp [hne', find_eq_self s.dslPaths p hmem]
  · intro hrel
    simp [watchHandler, habs', hrel]

/-- C5 witness -/
theorem watch_event_classification_witness :
    watchHandler sessionTsSource "/r/.videoml/config.yml" = WatchAction.fullRebuild
    ∧ watchHandler sessionTsSource "/w/a.babulus.ts" = WatchAction.scopedRebuild "/w/a.babulus.ts"
    ∧ watchHandler sessionTsSource "/w/logo.png" = WatchAction.noTrigger := by
  refine ⟨?_, ?_, ?_⟩
  · exact (watch_event_classification sessionTsSource "/r/.videoml/config.yml" (by decide)
      (fun cp h => by cases h; decide)).1 rfl
  · exact (watch_event_classification sessionTsSource "/w/a.babulus.ts" (by decide)
      (fun cp h => by cases h; decide)).2.1 (by decide) (by decide) (by decide)
  · exact (watch_event_classification sessionTsSource "/w/logo.png" (by decide)
      (fun cp h => by cases h; decide)).2.2 (by decide)

/-- C9 counterexample -/
theorem yml_tracked_source_triggers :
    strEndsWith "/w/a.yml" ".yml" = true
    ∧ sessionYmlSource.configPath ≠ some "/w/a.yml"
    ∧ (sessionYmlSource.dslDirs.any fun d => strStartsWith "/w/a.yml" (d ++ "/")) = true
    ∧ watchHandler sessionYmlSource "/w/a.yml" ≠ WatchAction.noTrigger :=
  ⟨by decide, by decide, by decide, by decide⟩

/-- C9 amended -/
theorem yml_not_config_not_source_no_trigger (s : WatchSession) (p : String)
    (habs : strStartsWith p "/" = true)
    (hext : (strEndsWith p ".yml" || strEndsWith p ".yaml") = true)
    (hcfg : s.configPath ≠ some p)
    (hsrc : p ∉ s.dslPaths) :
    watchHandler s p = WatchAction.noTrigger := by
  have habs' : resolvePath s.cwd p = p := by simp [resolvePath, habs]
  have hrel : relevantExt p = true := by
    rcases Bool.or_eq_true _ _ |>.mp hext with hy | hy <;> simp [relevantExt, hy]
  obtain ⟨hts, hxml⟩ := yml_yaml_not_ts_xml p hext
  simp only [watchHandler, habs', hrel, Bool.not_true, Bool.false_eq_true, if_false]
  cases hcp : s.configPath with
  | none => simp [find_eq_none s.dslPaths p hsrc, hts, hxml]
  | some cp =>
    have hne' : (p == cp) = false := by
      have : cp ≠ p := fun h => hcfg (by rw [hcp, h])
      simp only [beq_eq_false_iff_ne, ne_eq]
      exact fun h => this h.symm
    simp [hne', find_eq_none s.dslPaths p hsrc, hts, hxml]

/-- C9 witness -/
theorem yml_not_config_not_source_no_trigger_witness :
    (strEndsWith "/w/other.yml" ".yml" || strEndsWith "/w/other.yml" ".yaml") = true
    ∧ sessionTsSource.configPath ≠ some "/w/other.yml"
    ∧ "/w/other.yml" ∉ sessionTsSource.dslPaths
    ∧ watchHandler sessionTsSource "/w/other.yml" = WatchAction.noTrigger :=
  ⟨by decide, by decide, by decide,
    yml_not_config_not_source_no_trigger sessionTsSource "/w/other.yml"
      (by decide) (by decide) (by decide) (by decide)⟩

/-- C2 -/
theorem concurrent_rebuilds_reachable :
    watchHandler sessionTsSource "/w/a.babulus.ts" ≠ WatchAction.noTrigger
    ∧ Relation.ReflTransGen (WatchStep sessionTsSource) ⟨0⟩ ⟨2⟩ := by
  have hfire : watchHandler sessionTsSource "/w/a.babulus.ts" ≠ WatchAction.noTrigger := by decide
  refine ⟨hfire, ?_⟩
  have s1 : WatchStep sessionTsSource ⟨0⟩ ⟨1⟩ := WatchStep.fire "/w/a.babulus.ts" ⟨0⟩ hfire
  have s2 : WatchStep sessionTsSource ⟨1⟩ ⟨2⟩ := WatchStep.fire "/w/a.babulus.ts" ⟨1⟩ hfire
  exact Relation.ReflTransGen.head s1 (Relation.ReflTransGen.head s2 Relation.ReflTransGen.refl)



theorem joinPath_data (a b : String) : (joinPath a b).data = a.data ++ '/' :: b.data := by
  simp [joinPath]

theorem mem_sortStrings (p : String) (l : List String) : p ∈ sortStrings l ↔ p ∈ l :=
  (List.perm_insertionSort _ l).mem_iff

theorem nodup_sortStrings (l : List String) : (sortStrings l).Nodup ↔ l.Nodup :=
  (List.perm_insertionSort _ l).nodup_iff

theorem treeFile_nil (root p n : String) : ¬ TreeFile root EntryList.nil p n := by
  intro h
  cases h with
  | here hm => simp [EntryList.toList] at hm
  | deeper hm _ => simp [EntryList.toList] at hm

theorem treeFile_cons (root : String) (e : Entry) (rest : EntryList) (p n : String) :
    TreeFile root (EntryList.cons e rest) p n ↔
      (e = Entry.file n ∧ p = joinPath root n)
      ∨ (∃ d cs, e = Entry.dir d cs ∧ TreeFile (joinPath root d) cs p n)
      ∨ TreeFile root rest p n := by
  constructor
  · intro h
    cases h with
    | here hm =>
      rw [show (EntryList.cons e rest).toList = e :: rest.toList from rfl] at hm
      cases hm with
      | head => exact Or.inl ⟨rfl, rfl⟩
      | tail _ hmem => exact Or.inr (Or.inr (TreeFile.here hmem))
    | deeper hm hsub =>
      rw [show (EntryList.cons e rest).toList = e :: rest.toList from rfl] at hm
      cases hm with
      | head => exact Or.inr (Or.inl ⟨_, _, rfl, hsub⟩)
      | tail _ hmem => exact Or.inr (Or.inr (TreeFile.deeper hmem hsub))
  · rintro (⟨rfl, rfl⟩ | ⟨d, cs, rfl, hsub⟩ | h)
    · exact TreeFile.here (List.mem_cons_self _ _)
    · exact TreeFile.deeper (List.mem_cons_self _ _) hsub
    · cases h with
      | here hm => exact TreeFile.here (List.mem_cons_of_mem _ hm)
      | deeper hm hsub => exact TreeFile.deeper (List.mem_cons_of_mem _ hm) hsub

theorem seg_names_eq : ∀ (n1 n2 s1 s2 : List Char),
    '/' ∉ n1 → '/' ∉ n2 →
    (s1 = [] ∨ ∃ t, s1 = '/' :: t) → (s2 = [] ∨ ∃ t, s2 = '/' :: t) →
    n1 ++ s1 = n2 ++ s2 → n1 = n2 := by
  intro n1
  induction n1 with
  | nil =>
    intro n2 s1 s2 _ hn2 hs1 _ h
    cases n2 with
    | nil => rfl
    | cons c cs =>
      exfalso
      rcases hs1 with rfl | ⟨t, rfl⟩
      · simp at h
      · rw [List.nil_append, List.cons_append] at h
        have hc : c = '/' := by
          have := congrArg (fun l => l.head?) h
          simpa using this.symm
        exact hn2 (hc ▸ List.mem_cons_self c cs)
  | cons c1 cs1 ih =>
    intro n2 s1 s2 hn1 hn2 hs1 hs2 h
    cases n2 with
    | nil =>
      exfalso
      rcases hs2 with rfl | ⟨t, rfl⟩
      · simp at h
      · rw [List.nil_append, List.cons_append] at h
        have hc : c1 = '/' := by
          have := congrArg (fun l => l.head?) h
          simpa using this
        exact hn1 (hc ▸ List.mem_cons_self c1 cs1)
    | cons c2 cs2 =>
      rw [List.cons_append, List.cons_append] at h
      have hc : c1 = c2 := by
        have := congrArg (fun l => l.head?) h
        simpa using this
      subst hc
      have htail : cs1 ++ s1 = cs2 ++ s2 := by
        have := congrArg (fun l => l.tail) h
        simpa using this
      have := ih cs2 s1 s2 (fun hm => hn1 (List.mem_cons_of_mem _ hm))
        (fun hm => hn2 (List.mem_cons_of_mem _ hm)) hs1 hs2 htail
      rw [this]

theorem wf_unpack (e : Entry) (rest : EntryList)
    (h : wfEntries (EntryList.cons e rest) = true) :
    wfEntry e = true ∧ entryName e ∉ rest.toList.map entryName ∧ wfEntries rest = true := by
  rw [wfEntries] at h
  simp only [Bool.and_eq_true, Bool.not_eq_true'] at h
  refine ⟨h.1.1, ?_, h.2⟩
  intro hmem
  have := h.1.2
  simp [List.contains, hmem] at this

theorem wf_all : ∀ (es : EntryList), wfEntries es = true →
    ∀ e ∈ es.toList, wfEntry e = true
  | .nil, _, e, he => by simp [EntryList.toList] at he
  | .cons a rest, h, e, he => by
    obtain ⟨h1, _, h3⟩ := wf_unpack a rest h
    rw [show (EntryList.cons a rest).toList = a :: rest.toList from rfl] at he
    cases he with
    | head => exact h1
    | tail _ hm => exact wf_all rest h3 e hm

theorem goodName_no_slash (n : String) (h : goodName n = true) : '/' ∉ n.data := by
  rw [goodName] at h
  simp only [Bool.and_eq_true, Bool.not_eq_true'] at h
  intro hm
  have := h.2
  simp [List.contains, hm] at this

theorem good_of_wf (e : Entry) (h : wfEntry e = true) : goodName (entryName e) = true := by
  cases e with
  | file n => simpa [wfEntry, entryName] using h
  | dir n cs =>
    rw [wfEntry] at h
    simp only [Bool.and_eq_true] at h
    simpa [entryName] using h.1



theorem shape_findDslCollect : ∀ (root : String) (rec' : Bool) (es : EntryList) (p : String),
    p ∈ findDslCollect root rec' es →
    ∃ e s, e ∈ es.toList ∧ p.data = root.data ++ '/' :: ((entryName e).data ++ s)
      ∧ (s = [] ∨ ∃ t, s = '/' :: t)
  | root, rec', .nil, p => by
    intro h
    simp [findDslCollect] at h
  | root, rec', .cons (Entry.file n) rest, p => by
    intro h
    simp only [findDslCollect] at h
    rcases List.mem_append.mp h with h | h
    · have hp : p = joinPath root n := by
        by_cases hd : isDslName n = true
        · simpa [hd] using h
        · simp [hd] at h
      refine ⟨Entry.file n, [], List.mem_cons_self _ _, ?_, Or.inl rfl⟩
      rw [hp, joinPath_data]
      simp [entryName]
    · obtain ⟨e, s, hmem, hdata, hsh⟩ := shape_findDslCollect root rec' rest p h
      exact ⟨e, s, List.mem_cons_of_mem _ hmem, hdata, hsh⟩
  | root, rec', .cons (Entry.dir d cs) rest, p => by
    intro h
    simp only [findDslCollect] at h
    rcases List.mem_append.mp h with h | h
    · have hp : p ∈ sortStrings (findDslCollect (joinPath root d) true cs) := by
        by_cases hr : rec' = true
        · simpa [hr] using h
        · have hr' : rec' = false := by cases rec' <;> simp_all
          simp [hr'] at h
      rw [mem_sortStrings] at hp
      obtain ⟨e, s, hmem, hdata, hsh⟩ := shape_findDslCollect (joinPath root d) true cs p hp
      refine ⟨Entry.dir d cs, '/' :: ((entryName e).data ++ s), List.mem_cons_self _ _, ?_,
        Or.inr ⟨_, rfl⟩⟩
      rw [hdata, joinPath_data]
      simp [entryName, List.append_assoc]
    · obtain ⟨e, s, hmem, hdata, hsh⟩ := shape_findDslCollect root rec' rest p h
      exact ⟨e, s, List.mem_cons_of_mem _ hmem, hdata, hsh⟩

theorem mem_findDslCollect : ∀ (root : String) (es : EntryList) (p : String),
    p ∈ findDslCollect root true es ↔ ∃ n, TreeFile root es p n ∧ isDslName n = true
  | root, .nil, p => by
    simp only [findDslCollect, List.not_mem_nil, false_iff, not_exists]
    intro n h
    exact absurd h.1 (treeFile_nil root p n)
  | root, .cons (Entry.file n) rest, p => by
    simp only [findDslCollect, List.mem_append]
    constructor
    · rintro (h | h)
      · by_cases hd : isDslName n = true
        · have hp : p = joinPath root n := by simpa [hd] using h
          subst hp
          exact ⟨n, TreeFile.here (List.mem_cons_self _ _), hd⟩
        · simp [hd] at h
      · obtain ⟨m, hm, hdsl⟩ := (mem_findDslCollect root rest p).mp h
        exact ⟨m, (treeFile_cons root (Entry.file n) rest p m).mpr (Or.inr (Or.inr hm)), hdsl⟩
    · rintro ⟨m, hm, hdsl⟩
      rcases (treeFile_cons root (Entry.file n) rest p m).mp hm with ⟨he, hp⟩ | ⟨d, cs, he, _⟩ | hrest
      · left
        have hnm : n = m := by injection he
        subst hnm
        subst hp
        simp [hdsl]
      · exact absurd he (by simp)
      · exact Or.inr ((mem_findDslCollect root rest p).mpr ⟨m, hrest, hdsl⟩)
  | root, .cons (Entry.dir d cs) rest, p => by
    simp only [findDslCollect, if_true, List.mem_append]
    constructor
    · rintro (h | h)
      · rw [mem_sortStrings] at h
        obtain ⟨m, hm, hdsl⟩ := (mem_findDslCollect (joinPath root d) cs p).mp h
        exact ⟨m, (treeFile_cons root (Entry.dir d cs) rest p m).mpr
          (Or.inr (Or.inl ⟨d, cs, rfl, hm⟩)), hdsl⟩
      · obtain ⟨m, hm, hdsl⟩ := (mem_findDslCollect root rest p).mp h
        exact ⟨m, (treeFile_cons root (Entry.dir d cs) rest p m).mpr (Or.inr (Or.inr hm)), hdsl⟩
    · rintro ⟨m, hm, hdsl⟩
      rcases (treeFile_cons root (Entry.dir d cs) rest p m).mp hm with
        ⟨he, _⟩ | ⟨d', cs', he, hsub⟩ | hrest
      · exact absurd he (by simp)
      · left
        injection he with he1 he2
        subst he1
        subst he2
        rw [mem_sortStrings]
        exact (mem_findDslCollect (joinPath root d) cs p).mpr ⟨m, hsub, hdsl⟩
      · exact Or.inr ((mem_findDslCollect root rest p).mpr ⟨m, hrest, hdsl⟩)



theorem nodup_findDslCollect : ∀ (root : String) (rec' : Bool) (es : EntryList),
    wfEntries es = true → (findDslCollect root rec' es).Nodup
  | _, _, .nil, _ => by simp [findDslCollect]
  | root, rec', .cons (Entry.file n) rest, hwf => by
    obtain ⟨h1, h2, h3⟩ := wf_unpack _ _ hwf
    simp only [findDslCollect]
    apply List.Nodup.append
    · by_cases hd : isDslName n = true <;> simp [hd]
    · exact nodup_findDslCollect root rec' rest h3
    · intro x hx hx2
      have hxp : x = joinPath root n := by
        by_cases hd : isDslName n = true
        · simpa [hd] using hx
        · simp [hd] at hx
      obtain ⟨e, s, hmem, hdata, hsh⟩ := shape_findDslCollect root rec' rest x hx2
      have hslash1 : '/' ∉ n.data := goodName_no_slash n (by simpa [wfEntry] using h1)
      have hwe : wfEntry e = true := wf_all rest h3 e hmem
      have hslash2 : '/' ∉ (entryName e).data := goodName_no_slash _ (good_of_wf e hwe)
      have h0 : x.data = root.data ++ '/' :: (n.data ++ []) := by
        rw [hxp, joinPath_data]
        simp
      rw [h0] at hdata
      have hcanc0 := List.append_cancel_left hdata
      injection hcanc0 with _ hcanc
      have heq : n.data = (entryName e).data :=
        seg_names_eq n.data (entryName e).data [] s hslash1 hslash2 (Or.inl rfl) hsh hcanc
      have hname : entryName e = n := (String.ext heq).symm
      have : entryName (Entry.file n) ∈ rest.toList.map entryName := by
        rw [show entryName (Entry.file n) = n from rfl, ← hname]
        exact List.mem_map_of_mem entryName hmem
      exact h2 this
  | root, rec', .cons (Entry.dir d cs) rest, hwf => by
    obtain ⟨h1, h2, h3⟩ := wf_unpack _ _ hwf
    have h1' : goodName d = true ∧ wfEntries cs = true := by
      rw [wfEntry] at h1
      simpa using h1
    simp only [findDslCollect]
    apply List.Nodup.append
    · by_cases hr : rec' = true
      · rw [if_pos hr, nodup_sortStrings]
        exact nodup_findDslCollect (joinPath root d) true cs h1'.2
      · have hr' : rec' = false := by cases rec' <;> simp_all
        simp [hr']
    · exact nodup_findDslCollect root rec' rest h3
    · intro x hx hx2
      have hx' : x ∈ findDslCollect (joinPath root d) true cs := by
        by_cases hr : rec' = true
        · rw [if_pos hr, mem_sortStrings] at hx
          exact hx
        · have hr' : rec' = false := by cases rec' <;> simp_all
          simp [hr'] at hx
      obtain ⟨e1, s1, hm1, hd1, hsh1⟩ := shape_findDslCollect (joinPath root d) true cs x hx'
      obtain ⟨e2, s2, hm2, hd2, hsh2⟩ := shape_findDslCollect root rec' rest x hx2
      have hd1' : x.data = root.data ++ '/' :: (d.data ++ ('/' :: ((entryName e1).data ++ s1))) := by
        rw [hd1, joinPath_data]
        simp [List.append_assoc]
      rw [hd1'] at hd2
      have hcanc0 := List.append_cancel_left hd2
      injection hcanc0 with _ hcanc
      have hslashd : '/' ∉ d.data := goodName_no_slash d h1'.1
      have hwe2 : wfEntry e2 = true := wf_all rest h3 e2 hm2
      have hslash2 : '/' ∉ (entryName e2).data := goodName_no_slash _ (good_of_wf e2 hwe2)
      have heq : d.data = (entryName e2).data :=
        seg_names_eq d.data (entryName e2).data ('/' :: ((entryName e1).data ++ s1)) s2
          hslashd hslash2 (Or.inr ⟨_, rfl⟩) hsh2 hcanc
      have hname : entryName e2 = d := (String.ext heq).symm
      have : entryName (Entry.dir d cs) ∈ rest.toList.map entryName := by
        rw [show entryName (Entry.dir d cs) = d from rfl, ← hname]
        exact List.mem_map_of_mem entryName hm2
      exact h2 this

/-- C7: for every well-formed directory tree, the recursive scan
returns exactly the matching `.babulus.ts`/`.babulus.xml` files — no
unrelated file — lexicographically sorted and without duplicates. -/
theorem findDslFiles_exact_sorted_nodup (root : String) (es : EntryList)
    (hwf : wfEntries es = true) :
    (findDslFiles root true es).Pairwise (fun a b => strLe a b = true)
    ∧ (findDslFiles root true es).Nodup
    ∧ (∀ p, p ∈ findDslFiles root true es ↔
        ∃ n, TreeFile root es p n ∧ isDslName n = true) := by
  refine ⟨?_, ?_, ?_⟩
  · rw [findDslFiles]
    exact List.sorted_insertionSort _ _
  · rw [findDslFiles, nodup_sortStrings]
    exact nodup_findDslCollect root true es hwf
  · intro p
    rw [findDslFiles, mem_sortStrings]
    exact mem_findDslCollect root es p

/-- C7 witness -/
theorem findDslFiles_exact_sorted_nodup_witness :
    wfEntries exTree = true
    ∧ ((findDslFiles "/w" true exTree).Pairwise (fun a b => strLe a b = true)
      ∧ (findDslFiles "/w" true exTree).Nodup
      ∧ (∀ p, p ∈ findDslFiles "/w" true exTree ↔
          ∃ n, TreeFile "/w" exTree p n ∧ isDslName n = true)) :=
  ⟨by decide, findDslFiles_exact_sorted_nodup "/w" exTree (by decide)⟩

end VML
